import Mathlib

/-!
Shallow embedding of the XP Music Visualizer's audio-to-visual pipeline
(`src/app.js`, class `XPVisualizer`, IIFE starting at the second script).
JS numbers are modelled as exact rationals; the analyser's byte spectrum
(`Uint8Array dataArray`) as a list of naturals.  The JS initial value
`lastBeatAt = -Infinity` is modelled as `Option.none`; with that value the
JS expressions `nowSec - this.lastBeatAt > 0.18` and
`Math.max(0, 1 - beatAge / 0.25)` evaluate to `true` and `0` respectively,
which is exactly what the `none` branches below return.
-/

namespace DJVision

/-- Rhythm-estimation state carried by `XPVisualizer` across animation
ticks: fields `energyEMA`, `lastBeatAt`, `beatStrength` of the class. -/
structure RhythmState where
  energyEMA : ℚ
  lastBeatAt : Option ℚ
  beatStrength : ℚ
deriving DecidableEq

/-- Initial rhythm state set in the `XPVisualizer` constructor:
`energyEMA = 0`, `lastBeatAt = -Infinity`, `beatStrength = 0`. -/
def rhythmInit : RhythmState :=
  { energyEMA := 0, lastBeatAt := none, beatStrength := 0 }

/-- Size of the low-frequency sub-band, from
`const lowBandEnd = Math.max(8, Math.floor(len * 0.15))` (app.js:254).
`len * 15 / 100` in natural-number division equals `⌊len * 0.15⌋`. -/
def lowBandEnd (len : ℕ) : ℕ := max 8 (len * 15 / 100)

/-- Normalized low-band energy, from
`for (...) lowSum += this.dataArray[i]; const lowEnergy = lowSum / (255 * lowBandEnd)`
(app.js:255-257). -/
def lowEnergyOf (spectrum : List ℕ) : ℚ :=
  (((spectrum.take (lowBandEnd spectrum.length)).sum : ℕ) : ℚ) /
    (255 * (lowBandEnd spectrum.length : ℚ))

/-- Exponential-moving-average update of the energy baseline, from
`this.energyEMA = this.energyEMA === 0 ? lowEnergy : this.energyEMA * (1 - emaAlpha) + lowEnergy * emaAlpha`
with `emaAlpha = 0.12` (app.js:258-259). -/
def emaUpdate (prev lowEnergy : ℚ) : ℚ :=
  if prev = 0 then lowEnergy
  else prev * (1 - 12 / 100) + lowEnergy * (12 / 100)

/-- Beat trigger condition, from
`if (lowEnergy > threshold && nowSec - this.lastBeatAt > 0.18)` where
`threshold = this.energyEMA * 1.35 + 0.02` computed from the already
updated baseline (app.js:260-262). -/
def beatFires (lowEnergy ema : ℚ) (lastBeatAt : Option ℚ) (nowSec : ℚ) : Bool :=
  decide (lowEnergy > ema * (135 / 100) + 2 / 100) &&
    (match lastBeatAt with
     | none => true
     | some t => decide (nowSec - t > 18 / 100))

/-- Decaying beat strength, from
`const beatAge = nowSec - this.lastBeatAt; this.beatStrength = Math.max(0, 1 - beatAge / 0.25)`
(app.js:266-267); for `lastBeatAt = -Infinity` the JS value is `0`. -/
def beatStrengthFun (lastBeatAt : Option ℚ) (nowSec : ℚ) : ℚ :=
  match lastBeatAt with
  | none => 0
  | some t => max 0 (1 - (nowSec - t) / (25 / 100))

/-- One rhythm update of `XPVisualizer.animate` (app.js:252-267): compute
the low-band energy, update the baseline, possibly trigger a beat
(setting `lastBeatAt = nowSec`), and recompute the beat strength. -/
def rhythmTick (s : RhythmState) (spectrum : List ℕ) (nowSec : ℚ) : RhythmState :=
  let lowEnergy := lowEnergyOf spectrum
  let ema := emaUpdate s.energyEMA lowEnergy
  let fires := beatFires lowEnergy ema s.lastBeatAt nowSec
  let lastBeatAt := if fires then some nowSec else s.lastBeatAt
  { energyEMA := ema
    lastBeatAt := lastBeatAt
    beatStrength := beatStrengthFun lastBeatAt nowSec }

/-- Whether the beat trigger condition of `animate` fires on a tick from
state `s` with the given spectrum and time. -/
def tickFires (s : RhythmState) (spectrum : List ℕ) (nowSec : ℚ) : Bool :=
  beatFires (lowEnergyOf spectrum)
    (emaUpdate s.energyEMA (lowEnergyOf spectrum)) s.lastBeatAt nowSec

/-- The sequence of rhythm states after each tick of a run, one entry per
tick (the state `animate` leaves behind after that frame). -/
def runStates (s : RhythmState) : List (List ℕ × ℚ) → List RhythmState
  | [] => []
  | (sp, t) :: rest =>
      rhythmTick s sp t :: runStates (rhythmTick s sp t) rest

/-- The per-tick trigger outcomes of a run of `animate`. -/
def runFires (s : RhythmState) : List (List ℕ × ℚ) → List Bool
  | [] => []
  | (sp, t) :: rest =>
      tickFires s sp t :: runFires (rhythmTick s sp t) rest

/-- A state-indexed all-quantifier over the states of a run, kept as a
plain recursive conjunction. -/
def AllStates (P : RhythmState → Prop) : List RhythmState → Prop
  | [] => True
  | s :: rest => P s ∧ AllStates P rest

/-- The three rendering styles dispatched by `animate` (app.js:269-275). -/
inductive Mode where
  | swirl
  | burst
  | spectrum3d
deriving DecidableEq

/-- Mode dispatch of `animate` (app.js:269-275): the chained
`if (currentStyle === 'swirl') ... else if ('burst') ... else if ('spectrum3d')`
comparison of the externally-selected style string.  A string matching no
branch selects no draw routine at all. -/
def dispatchStyle (style : String) : Option Mode :=
  if style = "swirl" then some Mode.swirl
  else if style = "burst" then some Mode.burst
  else if style = "spectrum3d" then some Mode.spectrum3d
  else none

/-- One full `animate` tick as far as it is numeric: the rhythm update
always runs, then the draw routine selected by the style string (if any)
is invoked; the callback then reschedules itself unconditionally, so the
tick is a total function of its inputs. -/
def animTick (style : String) (s : RhythmState) (spectrum : List ℕ)
    (nowSec : ℚ) : RhythmState × Option Mode :=
  (rhythmTick s spectrum nowSec, dispatchStyle style)

/-- Arc radius of bin `binVal` in Swirl mode, from
`const amp = this.dataArray[i] / 255; const beatBoost = 1 + this.beatStrength * 0.25;`
`const radius = this.maxRadius * (0.55 + amp * 0.6) * beatBoost` (app.js:289-291). -/
def swirlRadius (maxRadius beatStrength : ℚ) (binVal : ℕ) : ℚ :=
  maxRadius * (55 / 100 + ((binVal : ℚ) / 255) * (6 / 10)) *
    (1 + beatStrength * (25 / 100))

/-- The radii of the arcs emitted by the first pass of `drawSwirl`
(app.js:288-301): one arc per spectrum bin, with no guard on the
viewport, so the arc count always equals the bin count. -/
def drawSwirlRadii (maxRadius beatStrength : ℚ) (spectrum : List ℕ) : List ℚ :=
  spectrum.map (swirlRadius maxRadius beatStrength)

/-- A scribble-trail point of Burst mode (`this.scribble` entries). -/
structure Pt where
  x : ℚ
  y : ℚ
deriving DecidableEq

/-- Capacity of the Burst-mode scribble trail,
`this.maxScribblePoints = 200` (app.js:226). -/
def maxScribblePoints : ℕ := 200

/-- One Burst-mode update of the scribble trail, from
`this.scribble.push({x: sx, y: sy}); if (this.scribble.length > this.maxScribblePoints) this.scribble.shift()`
(app.js:348-351): append the new point, then drop the oldest point when
the capacity is exceeded. -/
def scribblePush (buf : List Pt) (p : Pt) : List Pt :=
  if maxScribblePoints < (buf ++ [p]).length then (buf ++ [p]).tail else buf ++ [p]

/-- A run of animation ticks as seen by the scribble buffer: a Burst tick
appends one point (`some p`); a tick in any other mode leaves the buffer
untouched (`drawSwirl` and `drawSpectrum3D` never access `this.scribble`). -/
def runScribble (buf : List Pt) : List (Option Pt) → List Pt
  | [] => buf
  | none :: rest => runScribble buf rest
  | some p :: rest => runScribble (scribblePush buf p) rest

/-- Number of bars of SpectrumBars mode, `const barCount = 64` (app.js:374). -/
def barCount : ℕ := 64

/-- Bins averaged per bar, `const barsPerBin = Math.floor(len / barCount)`
(app.js:375). -/
def barsPerBin (len : ℕ) : ℕ := len / barCount

/-- Per-bar bin sum of `drawSpectrum3D`, from
`let sum = 0; for (let j = 0; j < barsPerBin; j++) sum += this.dataArray[i * barsPerBin + j]`
(app.js:382-385); out-of-range reads cannot occur for the sizes used. -/
def barSum (spectrum : List ℕ) (bpb i : ℕ) : ℕ :=
  ∑ j ∈ Finset.range bpb, spectrum.getD (i * bpb + j) 0

/-- Per-bar normalized amplitude,
`const amp = sum / (barsPerBin * 255)` (app.js:386). -/
def barAmp (spectrum : List ℕ) (bpb i : ℕ) : ℚ :=
  (barSum spectrum bpb i : ℚ) / ((bpb : ℚ) * 255)

/-- Maximum bar height, `const maxBarHeight = height * 0.65` (app.js:378). -/
def maxBarHeightOf (height : ℚ) : ℚ := height * (65 / 100)

/-- Bar height, `const barHeight = maxBarHeight * amp` (app.js:387). -/
def barHeight (maxBarHeight amp : ℚ) : ℚ := maxBarHeight * amp

/-- Bar width, `const barWidth = width / barCount` (app.js:376): a
division by the constant bar count, never by a viewport dimension. -/
def barWidthOf (width : ℚ) : ℚ := width / (barCount : ℚ)

/-- The bar heights drawn by `drawSpectrum3D` (app.js:381-387): one bar
per index in `0..63`, with no guard on the viewport. -/
def drawSpectrumHeights (height : ℚ) (spectrum : List ℕ) : List ℚ :=
  (List.range barCount).map fun i =>
    barHeight (maxBarHeightOf height) (barAmp spectrum (barsPerBin spectrum.length) i)

/-- The natural-number division in `lowBandEnd` computes exactly the
real floor `⌊len * 0.15⌋` that the source's `Math.floor(len * 0.15)`
denotes. -/
theorem natFloor_mul_15_100 (n : ℕ) :
    Nat.floor ((n : ℚ) * (15 / 100)) = n * 15 / 100 := by
  have h : ((n : ℚ) * (15 / 100)) = ((n * 15 : ℕ) : ℚ) / ((100 : ℕ) : ℚ) := by
    push_cast
    ring
  rw [h, Nat.floor_div_nat, Nat.floor_natCast]

/-- C1: every tick of the rhythm update takes the first
`max(8, ⌊N * 0.15⌋)` bins as the low band, sets `lowEnergy` to their sum
over `255 * bandSize`, updates the baseline by seed-or-EMA with α = 0.12,
and triggers a beat (setting `lastBeatAt := nowSec`) exactly when
`lowEnergy > updatedBaseline * 1.35 + 0.02` and `nowSec - lastBeatAt > 0.18`. -/
theorem rhythm_update_formula (s : RhythmState) (sp : List ℕ) (now : ℚ) :
    (rhythmTick s sp now).energyEMA =
      (if s.energyEMA = 0 then lowEnergyOf sp
       else s.energyEMA * (1 - 12 / 100) + lowEnergyOf sp * (12 / 100)) ∧
    lowEnergyOf sp =
      (((sp.take (max 8 (Nat.floor ((sp.length : ℚ) * (15 / 100))))).sum : ℕ) : ℚ) /
        ((255 : ℚ) * ((max 8 (Nat.floor ((sp.length : ℚ) * (15 / 100))) : ℕ) : ℚ)) ∧
    (tickFires s sp now = true ↔
      lowEnergyOf sp > (rhythmTick s sp now).energyEMA * (135 / 100) + 2 / 100 ∧
        ∀ t ∈ s.lastBeatAt, now - t > 18 / 100) ∧
    (rhythmTick s sp now).lastBeatAt =
      (if tickFires s sp now then some now else s.lastBeatAt) := by
  refine ⟨rfl, ?_, ?_, rfl⟩
  · rw [lowEnergyOf, lowBandEnd, natFloor_mul_15_100]
  · cases h : s.lastBeatAt with
    | none =>
        simp [tickFires, beatFires, rhythmTick, h, emaUpdate]
    | some t =>
        simp [tickFires, beatFires, rhythmTick, h, emaUpdate, Option.mem_def]

/-- C4: with last trigger time `t`, the beat strength at any tick time
`now ≥ t` equals `max 0 (1 - (now - t)/0.25)`; it is non-increasing in
elapsed time, lies in `[0, 1]`, vanishes once `now - t ≥ 0.25`, and is
exactly the quantity `animate` recomputes every tick. -/
theorem beatStrength_decay (t now later : ℚ) (s : RhythmState) (sp : List ℕ)
    (h1 : t ≤ now) (h2 : now ≤ later) :
    beatStrengthFun (some t) now = max 0 (1 - (now - t) / (25 / 100)) ∧
    beatStrengthFun (some t) later ≤ beatStrengthFun (some t) now ∧
    0 ≤ beatStrengthFun (some t) now ∧
    beatStrengthFun (some t) now ≤ 1 ∧
    (25 / 100 ≤ now - t → beatStrengthFun (some t) now = 0) ∧
    (rhythmTick s sp now).beatStrength =
      beatStrengthFun (rhythmTick s sp now).lastBeatAt now := by
  have hq : (0 : ℚ) < 25 / 100 := by norm_num
  refine ⟨rfl, ?_, le_max_left 0 _, ?_, ?_, rfl⟩
  · show max 0 (1 - (later - t) / (25 / 100)) ≤ max 0 (1 - (now - t) / (25 / 100))
    have hdiv : (now - t) / (25 / 100) ≤ (later - t) / (25 / 100) := by
      exact (div_le_div_iff_of_pos_right hq).mpr (by linarith)
    exact max_le_max le_rfl (by linarith)
  · show max 0 (1 - (now - t) / (25 / 100)) ≤ 1
    have hnn : 0 ≤ (now - t) / (25 / 100) :=
      div_nonneg (by linarith) hq.le
    exact max_le (by norm_num) (by linarith)
  · intro h
    show max 0 (1 - (now - t) / (25 / 100)) = 0
    have : (1 : ℚ) ≤ (now - t) / (25 / 100) := (one_le_div hq).mpr h
    exact max_eq_left (by linarith)

/-- Witness for `beatStrength_decay` at `t = 0`, `now = 1/8`,
`later = 1/2`. -/
theorem beatStrength_decay_witness :
    beatStrengthFun (some 0) (1 / 8) = max 0 (1 - (1 / 8 - 0) / (25 / 100)) ∧
    beatStrengthFun (some 0) (1 / 2) ≤ beatStrengthFun (some 0) (1 / 8) ∧
    0 ≤ beatStrengthFun (some 0) (1 / 8) ∧
    beatStrengthFun (some 0) (1 / 8) ≤ 1 ∧
    ((25 : ℚ) / 100 ≤ 1 / 8 - 0 → beatStrengthFun (some 0) (1 / 8) = 0) ∧
    (rhythmTick rhythmInit [] (1 / 8)).beatStrength =
      beatStrengthFun (rhythmTick rhythmInit [] (1 / 8)).lastBeatAt (1 / 8) :=
  beatStrength_decay 0 (1 / 8) (1 / 2) rhythmInit [] (by norm_num) (by norm_num)

/-- A list of all-zero naturals has zero sum on any prefix. -/
theorem sum_take_eq_zero {sp : List ℕ} (h : ∀ v ∈ sp, v = 0) (k : ℕ) :
    (sp.take k).sum = 0 :=
  List.sum_eq_zero fun x hx => h x (List.take_subset k sp hx)

/-- On an all-zero spectrum, a tick from a state with zero baseline and
no past beat fires nothing and returns to the same silent shape. -/
theorem silent_tick (s : RhythmState) (sp : List ℕ) (τ : ℚ)
    (hema : s.energyEMA = 0) (hlast : s.lastBeatAt = none)
    (hsp : ∀ v ∈ sp, v = 0) :
    tickFires s sp τ = false ∧
      rhythmTick s sp τ = { energyEMA := 0, lastBeatAt := none, beatStrength := 0 } := by
  have hlow : lowEnergyOf sp = 0 := by
    unfold lowEnergyOf
    rw [sum_take_eq_zero hsp]
    simp
  have hfires : tickFires s sp τ = false := by
    norm_num [tickFires, beatFires, hlow, hlast, hema, emaUpdate]
  refine ⟨hfires, ?_⟩
  have hl : (if tickFires s sp τ then some τ else s.lastBeatAt) = none := by
    rw [hfires, hlast]
    simp
  show ({ energyEMA := emaUpdate s.energyEMA (lowEnergyOf sp),
          lastBeatAt := if tickFires s sp τ then some τ else s.lastBeatAt,
          beatStrength := beatStrengthFun
            (if tickFires s sp τ then some τ else s.lastBeatAt) τ } : RhythmState) = _
  rw [hl, hema, hlow]
  simp [emaUpdate, beatStrengthFun]

/-- Silence invariant pushed along a whole run, from any silent state. -/
theorem silence_run_aux (ticks : List (List ℕ × ℚ)) (s : RhythmState)
    (hema : s.energyEMA = 0) (hlast : s.lastBeatAt = none)
    (h : ∀ p ∈ ticks, ∀ v ∈ p.1, v = 0) :
    runFires s ticks = List.replicate ticks.length false ∧
    AllStates (fun st => st.beatStrength = 0) (runStates s ticks) := by
  induction ticks generalizing s with
  | nil => exact ⟨rfl, trivial⟩
  | cons p rest ih =>
      obtain ⟨sp, τ⟩ := p
      have hp : ∀ v ∈ sp, v = 0 := h _ (List.mem_cons_self _ _)
      have hrest : ∀ q ∈ rest, ∀ v ∈ q.1, v = 0 := fun q hq => h q (List.mem_cons_of_mem _ hq)
      obtain ⟨hfires, hstate⟩ := silent_tick s sp τ hema hlast hp
      have ihr := ih (rhythmTick s sp τ) (by rw [hstate]) (by rw [hstate]) hrest
      constructor
      · show tickFires s sp τ :: runFires (rhythmTick s sp τ) rest = _
        rw [hfires, ihr.1]
        simp [List.replicate_succ]
      · show (rhythmTick s sp τ).beatStrength = 0 ∧
          AllStates (fun st => st.beatStrength = 0) (runStates (rhythmTick s sp τ) rest)
        exact ⟨by rw [hstate], ihr.2⟩

/-- C2: from the initial state, on any run whose every spectrum is all
zeros, the beat trigger condition never fires and `beatStrength` is `0`
after every tick. -/
theorem silence_never_triggers (ticks : List (List ℕ × ℚ))
    (h : ∀ p ∈ ticks, ∀ v ∈ p.1, v = 0) :
    runFires rhythmInit ticks = List.replicate ticks.length false ∧
    AllStates (fun st => st.beatStrength = 0) (runStates rhythmInit ticks) :=
  silence_run_aux ticks rhythmInit rfl rfl h

/-- Witness for `silence_never_triggers` on a concrete two-tick run of
all-zero spectra. -/
theorem silence_never_triggers_witness :
    runFires rhythmInit [(List.replicate 8 0, 1), (List.replicate 8 0, 2)] =
      List.replicate ([(List.replicate 8 0, (1 : ℚ)), (List.replicate 8 0, 2)]).length false ∧
    AllStates (fun st => st.beatStrength = 0)
      (runStates rhythmInit [(List.replicate 8 0, 1), (List.replicate 8 0, 2)]) :=
  silence_never_triggers [(List.replicate 8 0, 1), (List.replicate 8 0, 2)] (by decide)

/-- Within the refractory window, a tick can never fire, whatever the
spectrum, and the stored beat time is left untouched. -/
theorem refractory_tick (t : ℚ) (s : RhythmState) (sp : List ℕ) (τ : ℚ)
    (hs : s.lastBeatAt = some t) (hτ : τ - t ≤ 18 / 100) :
    tickFires s sp τ = false ∧ (rhythmTick s sp τ).lastBeatAt = some t := by
  have hQ : (decide (τ - t > 18 / 100)) = false := by
    simp only [decide_eq_false_iff_not]
    exact not_lt.mpr hτ
  have hfires : tickFires s sp τ = false := by
    simp [tickFires, beatFires, hs, hQ]
  refine ⟨hfires, ?_⟩
  have : (rhythmTick s sp τ).lastBeatAt =
      if tickFires s sp τ then some τ else s.lastBeatAt := rfl
  rw [this, hfires, hs]
  simp

/-- Refractory invariant pushed along a whole run. -/
theorem refractory_run_aux (t : ℚ) (ticks : List (List ℕ × ℚ)) (s : RhythmState)
    (hs : s.lastBeatAt = some t)
    (hw : ∀ p ∈ ticks, p.2 - t ≤ 18 / 100) :
    runFires s ticks = List.replicate ticks.length false ∧
    AllStates (fun st => st.lastBeatAt = some t) (runStates s ticks) := by
  induction ticks generalizing s with
  | nil => exact ⟨rfl, trivial⟩
  | cons p rest ih =>
      obtain ⟨sp, τ⟩ := p
      have hp : τ - t ≤ 18 / 100 := hw _ (List.mem_cons_self _ _)
      have hrest : ∀ q ∈ rest, q.2 - t ≤ 18 / 100 := fun q hq => hw q (List.mem_cons_of_mem _ hq)
      obtain ⟨hfires, hkeep⟩ := refractory_tick t s sp τ hs hp
      have ihr := ih (rhythmTick s sp τ) hkeep hrest
      constructor
      · show tickFires s sp τ :: runFires (rhythmTick s sp τ) rest = _
        rw [hfires, ihr.1]
        simp [List.replicate_succ]
      · exact ⟨hkeep, ihr.2⟩

/-- C3: once a beat has been recorded at time `t`, no tick whose time
lies within the `0.18 s` refractory window can trigger a second beat,
regardless of the spectra, and the recorded beat time stays `t`. -/
theorem refractory_period_holds (t : ℚ) (s : RhythmState)
    (ticks : List (List ℕ × ℚ))
    (hs : s.lastBeatAt = some t)
    (hw : ∀ p ∈ ticks, p.2 - t ≤ 18 / 100) :
    runFires s ticks = List.replicate ticks.length false ∧
    AllStates (fun st => st.lastBeatAt = some t) (runStates s ticks) :=
  refractory_run_aux t ticks s hs hw

/-- Witness for `refractory_period_holds`: a beat recorded at time `0`,
followed by a saturated spectrum at time `1/10`, does not re-trigger. -/
theorem refractory_period_holds_witness :
    runFires { energyEMA := 0, lastBeatAt := some 0, beatStrength := 1 }
        [(List.replicate 8 255, 1 / 10)] =
      List.replicate ([(List.replicate 8 255, (1 : ℚ) / 10)]).length false ∧
    AllStates (fun st => st.lastBeatAt = some 0)
      (runStates { energyEMA := 0, lastBeatAt := some 0, beatStrength := 1 }
        [(List.replicate 8 255, 1 / 10)]) :=
  refractory_period_holds 0 { energyEMA := 0, lastBeatAt := some 0, beatStrength := 1 }
    [(List.replicate 8 255, 1 / 10)] rfl (by norm_num)

/-- The normalized low-band energy of a byte-bounded spectrum lies in
the unit interval. -/
theorem lowEnergy_in_unit (sp : List ℕ) (h : ∀ v ∈ sp, v ≤ 255) :
    0 ≤ lowEnergyOf sp ∧ lowEnergyOf sp ≤ 1 := by
  have hkpos : 0 < lowBandEnd sp.length :=
    lt_of_lt_of_le (by norm_num) (le_max_left 8 _)
  have hsum : (sp.take (lowBandEnd sp.length)).sum ≤ lowBandEnd sp.length * 255 := by
    calc (sp.take (lowBandEnd sp.length)).sum
        ≤ (sp.take (lowBandEnd sp.length)).length • 255 :=
          List.sum_le_card_nsmul _ _ fun x hx => h x (List.take_subset _ sp hx)
      _ = (sp.take (lowBandEnd sp.length)).length * 255 := smul_eq_mul ..
      _ ≤ lowBandEnd sp.length * 255 := by
          apply Nat.mul_le_mul_right
          rw [List.length_take]
          exact min_le_left _ _
  have hden : (0 : ℚ) < 255 * (lowBandEnd sp.length : ℚ) := by
    have : (0 : ℚ) < (lowBandEnd sp.length : ℚ) := by exact_mod_cast hkpos
    linarith
  constructor
  · exact div_nonneg (by positivity) hden.le
  · rw [lowEnergyOf, div_le_one hden]
    calc ((sp.take (lowBandEnd sp.length)).sum : ℚ)
        ≤ ((lowBandEnd sp.length * 255 : ℕ) : ℚ) := by exact_mod_cast hsum
      _ = 255 * (lowBandEnd sp.length : ℚ) := by push_cast; ring

/-- The seed-or-EMA baseline update keeps the unit interval. -/
theorem emaUpdate_in_unit (prev L : ℚ) (hp : 0 ≤ prev) (hp1 : prev ≤ 1)
    (hL : 0 ≤ L) (hL1 : L ≤ 1) :
    0 ≤ emaUpdate prev L ∧ emaUpdate prev L ≤ 1 := by
  unfold emaUpdate
  split
  · exact ⟨hL, hL1⟩
  · constructor <;> linarith

/-- Baseline-bound invariant pushed along a whole run. -/
theorem baseline_run_aux (ticks : List (List ℕ × ℚ)) (s : RhythmState)
    (hs : 0 ≤ s.energyEMA ∧ s.energyEMA ≤ 1)
    (h : ∀ p ∈ ticks, ∀ v ∈ p.1, v ≤ 255) :
    AllStates (fun st => 0 ≤ st.energyEMA ∧ st.energyEMA ≤ 1) (runStates s ticks) := by
  induction ticks generalizing s with
  | nil => trivial
  | cons p rest ih =>
      obtain ⟨sp, τ⟩ := p
      have hp : ∀ v ∈ sp, v ≤ 255 := h _ (List.mem_cons_self _ _)
      have hrest : ∀ q ∈ rest, ∀ v ∈ q.1, v ≤ 255 := fun q hq => h q (List.mem_cons_of_mem _ hq)
      have hL := lowEnergy_in_unit sp hp
      have hstep : 0 ≤ (rhythmTick s sp τ).energyEMA ∧ (rhythmTick s sp τ).energyEMA ≤ 1 :=
        emaUpdate_in_unit s.energyEMA (lowEnergyOf sp) hs.1 hs.2 hL.1 hL.2
      exact ⟨hstep, ih (rhythmTick s sp τ) hstep hrest⟩

/-- C10: from the initial zero baseline, with byte-bounded spectra, the
smoothed energy baseline stays in `[0, 1]` after every tick. -/
theorem energy_baseline_bounded (ticks : List (List ℕ × ℚ))
    (h : ∀ p ∈ ticks, ∀ v ∈ p.1, v ≤ 255) :
    AllStates (fun st => 0 ≤ st.energyEMA ∧ st.energyEMA ≤ 1) (runStates rhythmInit ticks) :=
  baseline_run_aux ticks rhythmInit (by norm_num [rhythmInit]) h

/-- Witness for `energy_baseline_bounded` on a concrete run mixing a
loud and a quiet spectrum. -/
theorem energy_baseline_bounded_witness :
    AllStates (fun st => 0 ≤ st.energyEMA ∧ st.energyEMA ≤ 1)
      (runStates rhythmInit [(List.replicate 8 255, 1), (List.replicate 8 3, 2)]) :=
  energy_baseline_bounded [(List.replicate 8 255, 1), (List.replicate 8 3, 2)] (by decide)

/-- One scribble update keeps the trail within its capacity. -/
theorem scribblePush_length_le (buf : List Pt) (p : Pt)
    (h : buf.length ≤ maxScribblePoints) :
    (scribblePush buf p).length ≤ maxScribblePoints := by
  unfold scribblePush
  split
  case isTrue hgt =>
    rw [List.length_tail]
    simp only [List.length_append, List.length_singleton]
    omega
  case isFalse hle =>
    simp only [List.length_append, List.length_singleton] at hle ⊢
    omega

/-- The trail-length bound pushed along any run of ticks. -/
theorem runScribble_length_le (ops : List (Option Pt)) (buf : List Pt)
    (h : buf.length ≤ maxScribblePoints) :
    (runScribble buf ops).length ≤ maxScribblePoints := by
  induction ops generalizing buf with
  | nil => exact h
  | cons o rest ih =>
      cases o with
      | none => exact ih buf h
      | some q => exact ih _ (scribblePush_length_le buf q h)

/-- C5: under any interleaving of Burst ticks (`some p`, appending one
trail point) and other-mode ticks (`none`, leaving the trail alone), the
scribble trail never exceeds `maxScribblePoints`, and a push at full
capacity evicts exactly the oldest point (FIFO). -/
theorem scribble_trail_bounded (buf : List Pt) (ops : List (Option Pt)) (p : Pt)
    (h : buf.length ≤ maxScribblePoints) :
    (runScribble buf ops).length ≤ maxScribblePoints ∧
    (buf.length = maxScribblePoints → scribblePush buf p = buf.tail ++ [p]) := by
  refine ⟨runScribble_length_le ops buf h, fun hfull => ?_⟩
  unfold scribblePush
  rw [if_pos]
  · cases buf with
    | nil => simp [maxScribblePoints] at hfull
    | cons a l => simp
  · simp only [List.length_append, List.length_singleton]
    omega

/-- Witness for `scribble_trail_bounded` at a full trail of 200 points. -/
theorem scribble_trail_bounded_witness :
    (runScribble (List.replicate 200 (Pt.mk 0 0)) [some (Pt.mk 1 1), none]).length ≤
      maxScribblePoints ∧
    ((List.replicate 200 (Pt.mk 0 0)).length = maxScribblePoints →
      scribblePush (List.replicate 200 (Pt.mk 0 0)) (Pt.mk 2 2) =
        (List.replicate 200 (Pt.mk 0 0)).tail ++ [Pt.mk 2 2]) :=
  scribble_trail_bounded (List.replicate 200 (Pt.mk 0 0)) [some (Pt.mk 1 1), none]
    (Pt.mk 2 2) (by rw [List.length_replicate, maxScribblePoints])

/-- Counterexample to C6's concrete value: with every bin at `128`,
`maxRadius = 1`, time `0` and `beatStrength = 0`, the Swirl radius of
bin 0 is `1447/1700 ≈ 0.851176`, not the claimed `0.8512` (the spec
rounds `128/255` to `0.502`). -/
theorem swirl_radius_claimed_value_false :
    ¬ (swirlRadius 1 0 ((List.replicate 32 128).getD 0 0) = 1 * (8512 / 10000)) := by
  have h0 : (List.replicate 32 (128 : ℕ)).getD 0 0 = 128 := rfl
  rw [h0]
  norm_num [swirlRadius]

/-- C6 (amended): the Swirl arc radius follows the formula
`maxRadius * (0.55 + amp * 0.6) * (1 + beatStrength * 0.25)` with
`amp = bin/255`; for an all-`128` spectrum, bin 0, `beatStrength = 0`,
the radius is exactly `maxRadius * (1447/1700)`. -/
theorem swirl_radius_formula (maxRadius beatStrength : ℚ) (binVal : ℕ) :
    swirlRadius maxRadius beatStrength binVal =
      maxRadius * (55 / 100 + ((binVal : ℚ) / 255) * (6 / 10)) *
        (1 + beatStrength * (25 / 100)) ∧
    swirlRadius maxRadius 0 ((List.replicate 32 128).getD 0 0) =
      maxRadius * (1447 / 1700) := by
  refine ⟨rfl, ?_⟩
  have h0 : (List.replicate 32 (128 : ℕ)).getD 0 0 = 128 := rfl
  rw [h0]
  unfold swirlRadius
  norm_num

/-- C7: with `N = 2048` bins, SpectrumBars uses exactly 32 bins per bar,
bar `i` averages bins `i*32 .. i*32+31`, and a saturated spectrum gives
every bar amplitude `1` and hence the full bar height. -/
theorem spectrum_bars_exact (sp : List ℕ) (i : ℕ) (hgt : ℚ) (hi : i < barCount) :
    barsPerBin 2048 = 32 ∧
    barAmp sp 32 i =
      ((∑ j ∈ Finset.range 32, ((sp.getD (i * 32 + j) 0 : ℕ) : ℚ)) / 32) / 255 ∧
    barAmp (List.replicate 2048 255) (barsPerBin 2048) i = 1 ∧
    barHeight (maxBarHeightOf hgt) (barAmp (List.replicate 2048 255) (barsPerBin 2048) i) =
      maxBarHeightOf hgt := by
  have hbpb : barsPerBin 2048 = 32 := rfl
  have hic : i < 64 := hi
  have key : barSum (List.replicate 2048 255) 32 i = 32 * 255 := by
    unfold barSum
    have heach : ∀ j ∈ Finset.range 32,
        (List.replicate 2048 (255 : ℕ)).getD (i * 32 + j) 0 = 255 := by
      intro j hj
      have hjlt : j < 32 := Finset.mem_range.mp hj
      have hidx : i * 32 + j < (List.replicate 2048 (255 : ℕ)).length := by
        rw [List.length_replicate]
        omega
      rw [List.getD_eq_getElem _ _ hidx, List.getElem_replicate]
    rw [Finset.sum_congr rfl heach, Finset.sum_const, Finset.card_range, smul_eq_mul]
  have hamp : barAmp (List.replicate 2048 255) (barsPerBin 2048) i = 1 := by
    rw [hbpb, barAmp, key]
    norm_num
  refine ⟨hbpb, ?_, hamp, ?_⟩
  · rw [barAmp, barSum]
    push_cast
    rw [div_div]
  · rw [hamp, barHeight, mul_one]

/-- Witness for `spectrum_bars_exact` at bar 0 with a 600-pixel-tall
viewport. -/
theorem spectrum_bars_exact_witness :
    barsPerBin 2048 = 32 ∧
    barAmp [] 32 0 =
      ((∑ j ∈ Finset.range 32, (([] : List ℕ).getD (0 * 32 + j) 0 : ℚ)) / 32) / 255 ∧
    barAmp (List.replicate 2048 255) (barsPerBin 2048) 0 = 1 ∧
    barHeight (maxBarHeightOf 600) (barAmp (List.replicate 2048 255) (barsPerBin 2048) 0) =
      maxBarHeightOf 600 :=
  spectrum_bars_exact [] 0 600 (by norm_num [barCount])

/-- Counterexample to C8: after a frame that rendered Swirl, a tick
whose externally-selected style is the unknown string `"alchemy"`
invokes no draw routine at all — it does not re-render the previously
active Swirl mode. -/
theorem unknown_style_not_rerendered :
    (animTick "swirl" rhythmInit [] 0).2 = some Mode.swirl ∧
    (animTick "alchemy" (animTick "swirl" rhythmInit [] 0).1 [] 1).2 = none ∧
    ¬ ((animTick "alchemy" (animTick "swirl" rhythmInit [] 0).1 [] 1).2 =
        some Mode.swirl) := by
  refine ⟨?_, ?_, ?_⟩ <;> decide

/-- C8 (amended): on an unknown style identifier the tick fails soft —
no draw routine is invoked for that frame (the persistent canvas simply
keeps the previously drawn pixels), while the rhythm state still updates
and the tick completes, so the loop continues without crashing. -/
theorem unknown_style_fails_soft (style : String) (s : RhythmState)
    (sp : List ℕ) (now : ℚ)
    (h1 : style ≠ "swirl") (h2 : style ≠ "burst") (h3 : style ≠ "spectrum3d") :
    (animTick style s sp now).2 = none ∧
    (animTick style s sp now).1 = rhythmTick s sp now := by
  refine ⟨?_, rfl⟩
  simp [animTick, dispatchStyle, h1, h2, h3]

/-- Witness for `unknown_style_fails_soft` at the style `"alchemy"`. -/
theorem unknown_style_fails_soft_witness :
    (animTick "alchemy" rhythmInit [] 0).2 = none ∧
    (animTick "alchemy" rhythmInit [] 0).1 = rhythmTick rhythmInit [] 0 :=
  unknown_style_fails_soft "alchemy" rhythmInit [] 0 (by decide) (by decide) (by decide)

/-- Counterexample to C9: on a zero-size viewport (where `resize` yields
`maxRadius = hypot(0, 0) = 0` and `height = 0`), neither `drawSwirl` nor
`drawSpectrum3D` skips the frame — both still emit their full lists of
geometry. -/
theorem degenerate_viewport_no_skip :
    drawSwirlRadii 0 0 (List.replicate 8 0) ≠ [] ∧
    drawSpectrumHeights 0 (List.replicate 2048 0) ≠ [] := by
  constructor
  · simp [drawSwirlRadii]
  · have h2 : (drawSpectrumHeights 0 (List.replicate 2048 0)).length = barCount := by
      simp only [drawSpectrumHeights, List.length_map, List.length_range]
    intro h
    rw [h] at h2
    simp [barCount] at h2

/-- C9 (amended): the draw routines contain no degenerate-viewport guard
and never skip a frame; on a zero viewport they emit their usual number
of primitives with all-zero geometry.  No radius or bar-width formula
divides by a viewport dimension (`barWidth` divides the width by the
constant bar count), so the geometry stays finite rather than NaN. -/
theorem degenerate_viewport_zero_geometry (bs : ℚ) (sp : List ℕ) :
    drawSwirlRadii 0 bs sp = List.replicate sp.length 0 ∧
    barWidthOf 0 = 0 ∧
    drawSpectrumHeights 0 sp = List.replicate barCount 0 := by
  refine ⟨?_, ?_, ?_⟩
  · unfold drawSwirlRadii swirlRadius
    simp
  · rw [barWidthOf]
    exact zero_div _
  · unfold drawSpectrumHeights barHeight maxBarHeightOf
    simp

end DJVision
